import Mathlib

/-!
Shallow embedding of the sandboxed workspace access layer of `PN.py`
(an MCP tool server exposing list/read/write/run-script over a workspace
root).  Paths are modelled as lists of segments; the filesystem as an
association list from absolute paths to byte contents plus a set of
directories; text as lists of Unicode scalar values; UTF-8 encoding and
strict decoding are modelled explicitly.  Each definition mirrors the
corresponding Python function.
-/

deriving instance DecidableEq for Except

namespace PN

/-- An absolute path, as the list of its segments below the filesystem
root (POSIX view: `/a/b` is `["a", "b"]`). -/
abbrev AbsPath := List String

/-- A caller-supplied path string, parsed into whether it is absolute and
its list of segments (which may contain `..` and `.`).  Mirrors
`pathlib.Path(rel_path)`. -/
structure RelPath where
  isAbs : Bool
  segs : List String
deriving DecidableEq

/-- Canonicalisation of a segment list, as `Path.resolve()` does on a
symlink-free tree: `..` pops the last segment (and is a no-op at the
filesystem root), `.` is dropped, other segments are appended. -/
def resolveSegs (acc : List String) : List String → List String
  | [] => acc
  | s :: rest =>
    if s = ".." then resolveSegs acc.dropLast rest
    else if s = "." then resolveSegs acc rest
    else resolveSegs (acc ++ [s]) rest

/-- `(WORKSPACE_ROOT / rel_path).resolve()`: joining a relative path to the
root (an absolute `rel_path` replaces the root entirely, as `Path./` does),
then canonicalising. -/
def canonicalPath (root : AbsPath) (r : RelPath) : AbsPath :=
  resolveSegs [] (if r.isAbs then r.segs else root ++ r.segs)

/-- `p.parents` of `pathlib`: every proper ancestor of `p`, up to the
filesystem root `[]`. -/
def parentsList (p : AbsPath) : List AbsPath :=
  (List.range p.length).map fun k => p.take k

/-- Rendering of an absolute path, as `str(path)` on POSIX. -/
def showPath (p : AbsPath) : String :=
  "/" ++ String.intercalate ("/") p

/-- The errors raised by the file operations of `PN.py` (each a `ValueError`
or `FileNotFoundError` there); constructors carry the data interpolated
into the corresponding message. -/
inductive FsErr where
  | pathEscape (p : AbsPath)
  | inadmissible (p : AbsPath)
  | notFound (p : AbsPath)
  | tooLarge (size : Nat) (limit : Nat) (p : AbsPath)
  | encodingError (p : AbsPath)
deriving DecidableEq

/-- `IGNORED_DIRS` from `PN.py`. -/
def ignoredDirs : List String := [".git", "node_modules", ".venv", ".mcp"]

/-- `IGNORED_FILE_SUFFIXES` from `PN.py`. -/
def ignoredFileSuffixes : List String :=
  [".pyc", ".pyo", ".png", ".jpg", ".jpeg", ".gif", ".ico", ".zip",
   ".tgz", ".gz", ".lock"]

/-- `MAX_READ_BYTES` from `PN.py`. -/
def maxReadBytes : Nat := 200000

/-- `_safe_path` from `PN.py`: canonicalise, then reject unless the root is
the path itself or one of its ancestors. -/
def safePath (root : AbsPath) (r : RelPath) : Except FsErr AbsPath :=
  let p := canonicalPath root r
  if root ∉ parentsList p ∧ p ≠ root then .error (.pathEscape p) else .ok p

/-- Generic membership in `parentsList`: exactly the strict initial
segments of `p`. -/
theorem mem_parentsList (q p : AbsPath) :
    q ∈ parentsList p ↔ ∃ k, k < p.length ∧ p.take k = q := by
  simp only [parentsList, List.mem_map, List.mem_range]

/-- The containment test of `_safe_path` is exactly the prefix relation on
segment lists. -/
theorem parents_or_self_iff (root p : AbsPath) :
    (root ∈ parentsList p ∨ p = root) ↔ root <+: p := by
  constructor
  · rintro (hm | rfl)
    · rcases (mem_parentsList root p).1 hm with ⟨k, _, rfl⟩
      exact ⟨p.drop k, List.take_append_drop k p⟩
    · exact List.prefix_refl p
  · intro hpre
    by_cases heq : p = root
    · exact Or.inr heq
    · left
      apply (mem_parentsList root p).2
      refine ⟨root.length, ?_, ?_⟩
      · rcases hpre with ⟨t, rfl⟩
        have ht : t ≠ [] := by
          rintro rfl; exact heq (by simp)
        have := List.length_pos.2 ht
        simp only [List.length_append]
        omega
      · rcases hpre with ⟨t, rfl⟩
        simp

/-- `safePath` succeeds exactly on paths whose canonical form has the root
as an initial segment (the root itself included), and then returns that
canonical form. -/
theorem safePath_ok_iff (root : AbsPath) (r : RelPath) :
    safePath root r = .ok (canonicalPath root r) ↔
      root <+: canonicalPath root r := by
  unfold safePath
  rcases Decidable.em (root ∈ parentsList (canonicalPath root r) ∨
      canonicalPath root r = root) with h | h
  · rw [if_neg (by tauto)]
    simp [(parents_or_self_iff root (canonicalPath root r)).1 h]
  · rw [if_pos (by tauto)]
    constructor
    · intro hc; cases hc
    · intro hpre
      exact absurd ((parents_or_self_iff root (canonicalPath root r)).2 hpre) h

/-- `safePath` fails with `pathEscape` exactly on paths whose canonical
form does not lie under the root. -/
theorem safePath_err_iff (root : AbsPath) (r : RelPath) :
    safePath root r = .error (.pathEscape (canonicalPath root r)) ↔
      ¬ root <+: canonicalPath root r := by
  unfold safePath
  rcases Decidable.em (root ∈ parentsList (canonicalPath root r) ∨
      canonicalPath root r = root) with h | h
  · rw [if_neg (by tauto)]
    have := (parents_or_self_iff root (canonicalPath root r)).1 h
    simp [this]
  · rw [if_pos (by tauto)]
    constructor
    · intro _ hpre
      exact absurd ((parents_or_self_iff root (canonicalPath root r)).2 hpre) h
    · intro _; rfl

/-- Index of the last `.` in a list of characters, if any
(`name.rfind(chr(46))` of Python). -/
def rfindDot : List Char → Option Nat
  | [] => none
  | c :: cs =>
    match rfindDot cs with
    | some i => some (i + 1)
    | none => if c = '.' then some 0 else none

/-- `PurePath.suffix` of `pathlib`: the part of the final component from
its last dot on, unless that dot is the first or the last character. -/
def pathSuffix (name : String) : String :=
  match rfindDot name.toList with
  | none => ""
  | some i =>
    if 0 < i ∧ i < name.toList.length - 1 then String.mk (name.toList.drop i)
    else ""

/-- The final component of an absolute path (`path.name`; empty for the
filesystem root). -/
def lastName (p : AbsPath) : String := p.getLast?.getD ""

/-- The filesystem visible to the server: regular files with their byte
contents, and the set of existing directories.  Symlinks do not occur
(`canonicalPath` is then exactly `Path.resolve`). -/
structure FS where
  files : List (AbsPath × List Nat)
  dirs : List AbsPath
deriving DecidableEq

/-- A Unicode scalar value: exactly the code points Python's `str` can
encode to UTF-8 (surrogates excluded). -/
def ValidScalar (n : Nat) : Prop :=
  n < 0x110000 ∧ ¬ (0xD800 ≤ n ∧ n < 0xE000)

instance (n : Nat) : Decidable (ValidScalar n) := by
  unfold ValidScalar; infer_instance

/-- UTF-8 encoding of one scalar value (`chr(n).encode()` of Python). -/
def utf8EncodeCp (n : Nat) : List Nat :=
  if n < 0x80 then [n]
  else if n < 0x800 then [0xC0 + n / 64, 0x80 + n % 64]
  else if n < 0x10000 then
    [0xE0 + n / 4096, 0x80 + n / 64 % 64, 0x80 + n % 64]
  else
    [0xF0 + n / 262144, 0x80 + n / 4096 % 64, 0x80 + n / 64 % 64,
     0x80 + n % 64]

/-- UTF-8 encoding of a text, the text being its list of scalar values
(`content.encode()` of Python). -/
def utf8Encode : List Nat → List Nat
  | [] => []
  | c :: cs => utf8EncodeCp c ++ utf8Encode cs

/-- A scalar value just assembled from a multi-byte sequence is emitted
only if it is not an overlong form (`lo` is the least value the sequence
length may encode), not a surrogate, and not beyond the last code
point. -/
def emitOk (lo n : Nat) : Prop :=
  lo ≤ n ∧ n < 0x110000 ∧ ¬ (0xD800 ≤ n ∧ n < 0xE000)

instance (lo n : Nat) : Decidable (emitOk lo n) := by
  unfold emitOk; infer_instance

/-- Strict UTF-8 decoding, one byte at a time (`bytes.decode()` of Python
with strict errors, presented as the standard accepting automaton): the
state is `none` when a leading byte is expected, and `some (acc, k, lo)`
when `k` continuation bytes are still expected, `acc` holds the bits read
so far and `lo` the least scalar value legal for the sequence length.
Invalid leading bytes, unexpected or missing continuation bytes, overlong
forms, surrogates and values beyond the last code point all fail; no byte
is ever skipped or substituted. -/
def utf8DecodeSt : List Nat → Option (Nat × Nat × Nat) → Option (List Nat)
  | [], none => some []
  | [], some _ => none
  | b :: bs, none =>
    if b < 0x80 then (utf8DecodeSt bs none).map (fun cs => b :: cs)
    else if b < 0xC0 then none
    else if b < 0xE0 then utf8DecodeSt bs (some (b - 0xC0, 1, 0x80))
    else if b < 0xF0 then utf8DecodeSt bs (some (b - 0xE0, 2, 0x800))
    else if b < 0xF8 then utf8DecodeSt bs (some (b - 0xF0, 3, 0x10000))
    else none
  | b :: bs, some (acc, k, lo) =>
    if 0x80 ≤ b ∧ b < 0xC0 then
      if k ≤ 1 then
        if emitOk lo (acc * 64 + (b - 0x80)) then
          (utf8DecodeSt bs none).map (fun cs => (acc * 64 + (b - 0x80)) :: cs)
        else none
      else utf8DecodeSt bs (some (acc * 64 + (b - 0x80), k - 1, lo))
    else none

/-- Strict UTF-8 decoding of a byte string, from the initial state. -/
def utf8Decode (l : List Nat) : Option (List Nat) :=
  utf8DecodeSt l none

/-- The message attached to each error, as interpolated in `PN.py` (the
`read_file` wording for `inadmissible`). -/
def fsErrMsg : FsErr → String
  | .pathEscape p => "ワークスペース外のパスは参照できません: " ++ showPath p
  | .inadmissible p => "バイナリファイルは read_file では扱いません: " ++ showPath p
  | .notFound p => "ファイルが存在しません: " ++ showPath p
  | .tooLarge s l p =>
    "ファイルが大きすぎます (" ++ toString s ++ " bytes > " ++ toString l ++
      " bytes): " ++ showPath p
  | .encodingError p => "UTF-8 として読み取れませんでした: " ++ showPath p

/-- `read_file` from `PN.py`: safe-path containment, then the excluded
suffix check, then `stat` (missing file), then the size bound against
`MAX_READ_BYTES`, then strict UTF-8 decoding.  Success returns the decoded
text. -/
def read_file (fs : FS) (root : AbsPath) (r : RelPath) :
    Except FsErr (List Nat) :=
  match safePath root r with
  | .error e => .error e
  | .ok p =>
    if ignoredFileSuffixes.contains (pathSuffix (lastName p)) then
      .error (.inadmissible p)
    else
      match fs.files.lookup p with
      | none => .error (.notFound p)
      | some bytes =>
        if bytes.length > maxReadBytes then
          .error (.tooLarge bytes.length maxReadBytes p)
        else
          match utf8Decode bytes with
          | some text => .ok text
          | none => .error (.encodingError p)

/-- `path.parent.mkdir(parents=True, exist_ok=True)`: every missing strict
ancestor of `p` is created. -/
def mkdirParents (dirs : List AbsPath) (p : AbsPath) : List AbsPath :=
  dirs ++ (parentsList p).filter (fun q => q ∉ dirs)

/-- `write_file` from `PN.py`: safe-path containment, the excluded suffix
check, parent-directory creation, then a full overwrite of the file with
the UTF-8 encoding of the content.  Success returns the confirmation
message and the new filesystem. -/
def write_file (fs : FS) (root : AbsPath) (r : RelPath) (content : List Nat) :
    Except FsErr (String × FS) :=
  match safePath root r with
  | .error e => .error e
  | .ok p =>
    if ignoredFileSuffixes.contains (pathSuffix (lastName p)) then
      .error (.inadmissible p)
    else
      let dirs := mkdirParents fs.dirs p
      let files := (p, utf8Encode content) ::
        fs.files.filter (fun kv => ¬ (kv.1 == p))
      .ok ("書き込み完了: " ++ showPath p, FS.mk files dirs)

/-- The path-level content of `list_workspace_files` from `PN.py`: every
regular file strictly under the root (`rglob`), kept unless some segment of
its absolute path is an ignored directory name (`path.parts` includes the
root's own segments) or its suffix is ignored. -/
def listPaths (fs : FS) (root : AbsPath) : List AbsPath :=
  (fs.files.map Prod.fst).filter fun p =>
    root.isPrefixOf p && !(p == root) &&
      !(p.any (fun s => ignoredDirs.contains s)) &&
      !(ignoredFileSuffixes.contains (pathSuffix (lastName p)))

/-- `list_workspace_files` from `PN.py`: the kept paths, rendered relative
to the root (`str(path.relative_to(WORKSPACE_ROOT))`). -/
def list_workspace_files (fs : FS) (root : AbsPath) : List String :=
  (listPaths fs root).map fun p =>
    String.intercalate ("/") (p.drop root.length)

/-- The `scripts` mapping of `package.json` as `run_npm_script` sees it:
the file may be missing, fail to parse, or parse with the `scripts` key
absent or null (`none` here; `pkg_data.get` followed by `or` makes that
the empty mapping). -/
inductive ManifestState where
  | missing
  | invalid (msg : String)
  | parsed (scripts : Option (List (String × String)))
deriving DecidableEq

/-- What `subprocess.run` reports for one invocation: exit code, and the
two captured streams, already decoded with the console's preferred
encoding under `errors="replace"` (decoding is total: undecodable bytes
become replacement characters, never an exception). -/
structure ProcResult where
  returncode : Int
  stdout : String
  stderr : String
deriving DecidableEq

/-- The errors raised by `run_npm_script` (each a `FileNotFoundError` or
`ValueError` there), with their messages. -/
inductive ScriptErr where
  | manifestNotFound (msg : String)
  | manifestInvalid (msg : String)
  | unknownScript (msg : String)
deriving DecidableEq

/-- Python's string comparison on code-point sequences: `a <= b` is
lexicographic on the code points. -/
def cpLe : List Nat → List Nat → Bool
  | [], _ => true
  | _ :: _, [] => false
  | a :: as, b :: bs =>
    if a < b then true else if b < a then false else cpLe as bs

/-- `a <= b` on strings, by code points, exactly as Python compares the
keys inside `sorted`. -/
def strLeB (a b : String) : Bool :=
  cpLe (a.toList.map Char.toNat) (b.toList.map Char.toNat)

/-- One insertion step of the ascending sort. -/
def insertName (s : String) : List String → List String
  | [] => [s]
  | t :: ts => if strLeB s t then s :: t :: ts else t :: insertName s ts

/-- `sorted(names)`: ascending insertion sort under `strLeB` (any
comparison sort agrees with it on the comparisons used here). -/
def sortNames : List String → List String
  | [] => []
  | s :: ss => insertName s (sortNames ss)

/-- `', '.join(sorted(scripts.keys()))`: the script names in ascending
lexicographic order, comma-joined. -/
def joinedSortedNames (names : List String) : String :=
  String.intercalate (", ") (sortNames names)

/-- The message of the `UnknownScript` failure of `PN.py`. -/
def unknownScriptMsg (script : String) (names : List String) : String :=
  "package.json に scripts." ++ script ++ " が定義されていません。\n" ++
    "定義されているスクリプト: " ++ joinedSortedNames names

/-- The composed result text of `run_npm_script`. -/
def composeResult (proc : ProcResult) : String :=
  "exit_code: " ++ toString proc.returncode ++ "\nstdout:\n" ++ proc.stdout ++
    "\nstderr:\n" ++ proc.stderr

/-- `run_npm_script` from `PN.py`: manifest presence, JSON parse, the
`scripts` lookup (absent-or-null collapses to the empty mapping), then the
child process, whose observable behaviour is the `runner` parameter; its
exit code is returned as data inside the composed text, never as an
error. -/
def run_npm_script (m : ManifestState) (runner : String → ProcResult)
    (script : String) : Except ScriptErr String :=
  match m with
  | .missing => .error (.manifestNotFound ("package.json が見つかりません"))
  | .invalid e => .error (.manifestInvalid ("package.json が不正な JSON です: " ++ e))
  | .parsed scriptsOpt =>
    let scripts := scriptsOpt.getD []
    if (scripts.map Prod.fst).contains script then
      .ok (composeResult (runner script))
    else
      .error (.unknownScript (unknownScriptMsg script (scripts.map Prod.fst)))

/-- Decoding after encoding one scalar value peels it off and proceeds
with the remaining bytes. -/
theorem utf8Decode_encodeCp_append (n : Nat) (hv : ValidScalar n)
    (bs : List Nat) :
    utf8Decode (utf8EncodeCp n ++ bs) =
      (utf8Decode bs).map (fun cs => n :: cs) := by
  obtain ⟨hlt, hsur⟩ := hv
  unfold utf8Decode
  by_cases h1 : n < 0x80
  · rw [utf8EncodeCp, if_pos h1, List.cons_append, List.nil_append]
    rw [utf8DecodeSt, if_pos h1]
  · by_cases h2 : n < 0x800
    · rw [utf8EncodeCp, if_neg h1, if_pos h2, List.cons_append,
        List.cons_append, List.nil_append]
      rw [utf8DecodeSt, if_neg (by omega), if_neg (by omega),
        if_pos (by omega)]
      rw [utf8DecodeSt]
      rw [if_pos (by omega : 0x80 ≤ 0x80 + n % 64 ∧ 0x80 + n % 64 < 0xC0),
        if_pos (by omega : (1 : Nat) ≤ 1)]
      have hV : (0xC0 + n / 64 - 0xC0) * 64 + (0x80 + n % 64 - 0x80) = n := by
        omega
      have hE : emitOk (0x80) n := ⟨by omega, by omega, by omega⟩
      rw [hV, if_pos hE]
    · by_cases h3 : n < 0x10000
      · rw [utf8EncodeCp, if_neg h1, if_neg h2, if_pos h3, List.cons_append,
          List.cons_append, List.cons_append, List.nil_append]
        rw [utf8DecodeSt, if_neg (by omega), if_neg (by omega),
          if_neg (by omega), if_pos (by omega)]
        rw [utf8DecodeSt]
        rw [if_pos (by omega :
            0x80 ≤ 0x80 + n / 64 % 64 ∧ 0x80 + n / 64 % 64 < 0xC0),
          if_neg (by omega : ¬ (2 : Nat) ≤ 1)]
        rw [utf8DecodeSt]
        rw [if_pos (by omega : 0x80 ≤ 0x80 + n % 64 ∧ 0x80 + n % 64 < 0xC0),
          if_pos (by omega : 2 - 1 ≤ 1)]
        have hV : ((0xE0 + n / 4096 - 0xE0) * 64 +
            (0x80 + n / 64 % 64 - 0x80)) * 64 + (0x80 + n % 64 - 0x80) = n := by
          omega
        have hE : emitOk (0x800) n := ⟨by omega, by omega, hsur⟩
        rw [hV, if_pos hE]
      · rw [utf8EncodeCp, if_neg h1, if_neg h2, if_neg h3, List.cons_append,
          List.cons_append, List.cons_append, List.cons_append,
          List.nil_append]
        rw [utf8DecodeSt, if_neg (by omega), if_neg (by omega),
          if_neg (by omega), if_neg (by omega), if_pos (by omega)]
        rw [utf8DecodeSt]
        rw [if_pos (by omega :
            0x80 ≤ 0x80 + n / 4096 % 64 ∧ 0x80 + n / 4096 % 64 < 0xC0),
          if_neg (by omega : ¬ (3 : Nat) ≤ 1)]
        rw [utf8DecodeSt]
        rw [if_pos (by omega :
            0x80 ≤ 0x80 + n / 64 % 64 ∧ 0x80 + n / 64 % 64 < 0xC0),
          if_neg (by omega : ¬ (3 : Nat) - 1 ≤ 1)]
        rw [utf8DecodeSt]
        rw [if_pos (by omega : 0x80 ≤ 0x80 + n % 64 ∧ 0x80 + n % 64 < 0xC0),
          if_pos (by omega : 3 - 1 - 1 ≤ 1)]
        have hV : (((0xF0 + n / 262144 - 0xF0) * 64 +
            (0x80 + n / 4096 % 64 - 0x80)) * 64 +
            (0x80 + n / 64 % 64 - 0x80)) * 64 + (0x80 + n % 64 - 0x80) = n := by
          omega
        have hE : emitOk (0x10000) n := ⟨by omega, hlt, by omega⟩
        rw [hV, if_pos hE]

/-- Round trip: strict decoding of the UTF-8 encoding of any representable
text gives back exactly that text. -/
theorem utf8Decode_utf8Encode (cs : List Nat)
    (h : ∀ n ∈ cs, ValidScalar n) :
    utf8Decode (utf8Encode cs) = some cs := by
  induction cs with
  | nil => rfl
  | cons c cs ih =>
    have hc : ValidScalar c := h c (by simp)
    have hcs : ∀ n ∈ cs, ValidScalar n := fun n hn => h n (by simp [hn])
    rw [utf8Encode, utf8Decode_encodeCp_append c hc, ih hcs]
    rfl

/-- Head characterisation of the code-point comparison. -/
theorem cpLe_cons_iff (x y : Nat) (xs ys : List Nat) :
    cpLe (x :: xs) (y :: ys) = true ↔ x < y ∨ (x = y ∧ cpLe xs ys = true) := by
  simp only [cpLe]
  by_cases h1 : x < y
  · simp [h1]
  · by_cases h2 : y < x
    · simp [h1, h2]
      omega
    · have hxy : x = y := by omega
      simp [h1, h2, hxy]

/-- The code-point comparison is total. -/
theorem cpLe_total (a b : List Nat) : cpLe a b = true ∨ cpLe b a = true := by
  induction a generalizing b with
  | nil => left; rfl
  | cons x xs ih =>
    cases b with
    | nil => right; rfl
    | cons y ys =>
      rcases Nat.lt_trichotomy x y with h | h | h
      · left; exact (cpLe_cons_iff x y xs ys).2 (Or.inl h)
      · rcases ih ys with hr | hr
        · left; exact (cpLe_cons_iff x y xs ys).2 (Or.inr ⟨h, hr⟩)
        · right; exact (cpLe_cons_iff y x ys xs).2 (Or.inr ⟨h.symm, hr⟩)
      · right; exact (cpLe_cons_iff y x ys xs).2 (Or.inl h)

/-- The code-point comparison is transitive. -/
theorem cpLe_trans (a b c : List Nat) (hab : cpLe a b = true)
    (hbc : cpLe b c = true) : cpLe a c = true := by
  induction a generalizing b c with
  | nil => rfl
  | cons x xs ih =>
    cases b with
    | nil => simp [cpLe] at hab
    | cons y ys =>
      cases c with
      | nil => simp [cpLe] at hbc
      | cons z zs =>
        rcases (cpLe_cons_iff x y xs ys).1 hab with h | ⟨h, hr⟩ <;>
          rcases (cpLe_cons_iff y z ys zs).1 hbc with h2 | ⟨h2, hr2⟩
        · exact (cpLe_cons_iff x z xs zs).2 (Or.inl (by omega))
        · exact (cpLe_cons_iff x z xs zs).2 (Or.inl (by omega))
        · exact (cpLe_cons_iff x z xs zs).2 (Or.inl (by omega))
        · exact (cpLe_cons_iff x z xs zs).2
            (Or.inr ⟨by omega, ih ys zs hr hr2⟩)

/-- `strLeB` is total. -/
theorem strLeB_total (a b : String) : strLeB a b = true ∨ strLeB b a = true :=
  cpLe_total (a.toList.map Char.toNat) (b.toList.map Char.toNat)

/-- `strLeB` is transitive. -/
theorem strLeB_trans (a b c : String) (hab : strLeB a b = true)
    (hbc : strLeB b c = true) : strLeB a c = true :=
  cpLe_trans (a.toList.map Char.toNat) (b.toList.map Char.toNat)
    (c.toList.map Char.toNat) hab hbc

/-- Inserting is a permutation (one step of the sort). -/
theorem insertName_perm (s : String) (l : List String) :
    (insertName s l).Perm (s :: l) := by
  induction l with
  | nil => exact List.Perm.refl _
  | cons t ts ih =>
    rw [insertName]
    by_cases h : strLeB s t = true
    · rw [if_pos h]
    · rw [if_neg h]
      exact (ih.cons t).trans (List.Perm.swap s t ts)

/-- Sorting is a permutation: every script name appears in the sorted
enumeration. -/
theorem sortNames_perm (l : List String) : (sortNames l).Perm l := by
  induction l with
  | nil => exact List.Perm.refl _
  | cons s ss ih =>
    rw [sortNames]
    exact (insertName_perm s (sortNames ss)).trans (ih.cons s)

/-- Membership after insertion. -/
theorem mem_insertName (x s : String) (l : List String)
    (h : x ∈ insertName s l) : x = s ∨ x ∈ l := by
  have hm := (insertName_perm s l).mem_iff.1 h
  simpa using hm

/-- Inserting into an ascending list keeps it ascending. -/
theorem insertName_sorted (s : String) (l : List String)
    (h : l.Pairwise (fun a b => strLeB a b = true)) :
    (insertName s l).Pairwise (fun a b => strLeB a b = true) := by
  induction l with
  | nil => simp [insertName]
  | cons t ts ih =>
    rw [insertName]
    rcases List.pairwise_cons.1 h with ⟨ht, hts⟩
    by_cases hst : strLeB s t = true
    · rw [if_pos hst]
      refine List.pairwise_cons.2 ⟨?_, h⟩
      intro x hx
      rcases List.mem_cons.1 hx with rfl | hx
      · exact hst
      · exact strLeB_trans s t x hst (ht x hx)
    · rw [if_neg hst]
      refine List.pairwise_cons.2 ⟨?_, ih hts⟩
      intro x hx
      rcases mem_insertName x s ts hx with rfl | hx
      · rcases strLeB_total x t with hh | hh
        · exact absurd hh hst
        · exact hh
      · exact ht x hx

/-- The sorted enumeration is ascending under the code-point order. -/
theorem sortNames_sorted (l : List String) :
    (sortNames l).Pairwise (fun a b => strLeB a b = true) := by
  induction l with
  | nil => simp [sortNames]
  | cons s ss ih => exact insertName_sorted s (sortNames ss) ih

/-- `read_file` propagates the containment failure. -/
theorem read_file_escape (fs : FS) (root : AbsPath) (r : RelPath) (e : FsErr)
    (hsp : safePath root r = .error e) : read_file fs root r = .error e := by
  unfold read_file
  rw [hsp]

/-- `write_file` propagates the containment failure. -/
theorem write_file_escape (fs : FS) (root : AbsPath) (r : RelPath)
    (content : List Nat) (e : FsErr) (hsp : safePath root r = .error e) :
    write_file fs root r content = .error e := by
  unfold write_file
  rw [hsp]

/-- A `safePath` failure is always the `pathEscape` of the canonical
path. -/
theorem safePath_error_shape (root : AbsPath) (r : RelPath) (e : FsErr)
    (h : safePath root r = .error e) :
    e = .pathEscape (canonicalPath root r) := by
  by_cases hp : root <+: canonicalPath root r
  · rw [(safePath_ok_iff root r).2 hp] at h
    cases h
  · rw [(safePath_err_iff root r).2 hp] at h
    exact (Except.error.inj h).symm

/-- A `safePath` success always returns the canonical path. -/
theorem safePath_ok_shape (root : AbsPath) (r : RelPath) (p : AbsPath)
    (h : safePath root r = .ok p) : p = canonicalPath root r := by
  by_cases hp : root <+: canonicalPath root r
  · rw [(safePath_ok_iff root r).2 hp] at h
    exact (Except.ok.inj h).symm
  · rw [(safePath_err_iff root r).2 hp] at h
    cases h

/-- `read_file` on an excluded suffix. -/
theorem read_file_suffix (fs : FS) (root : AbsPath) (r : RelPath)
    (p : AbsPath) (hsp : safePath root r = .ok p)
    (hsuf : ignoredFileSuffixes.contains (pathSuffix (lastName p)) = true) :
    read_file fs root r = .error (.inadmissible p) := by
  unfold read_file
  rw [hsp]
  dsimp only
  rw [if_pos hsuf]

/-- `read_file` on a missing file. -/
theorem read_file_notFound (fs : FS) (root : AbsPath) (r : RelPath)
    (p : AbsPath) (hsp : safePath root r = .ok p)
    (hsuf : ¬ ignoredFileSuffixes.contains (pathSuffix (lastName p)) = true)
    (hlk : fs.files.lookup p = none) :
    read_file fs root r = .error (.notFound p) := by
  unfold read_file
  rw [hsp]
  dsimp only
  rw [if_neg hsuf, hlk]

/-- `read_file` on an oversized file: the error carries the actual size
and the limit, and does not depend on the bytes beyond their number. -/
theorem read_file_tooLarge (fs : FS) (root : AbsPath) (r : RelPath)
    (p : AbsPath) (bytes : List Nat) (hsp : safePath root r = .ok p)
    (hsuf : ¬ ignoredFileSuffixes.contains (pathSuffix (lastName p)) = true)
    (hlk : fs.files.lookup p = some bytes)
    (hsz : bytes.length > maxReadBytes) :
    read_file fs root r = .error (.tooLarge bytes.length maxReadBytes p) := by
  unfold read_file
  rw [hsp]
  dsimp only
  rw [if_neg hsuf, hlk]
  dsimp only
  rw [if_pos hsz]

/-- `read_file` on an undecodable file. -/
theorem read_file_encodingError (fs : FS) (root : AbsPath) (r : RelPath)
    (p : AbsPath) (bytes : List Nat) (hsp : safePath root r = .ok p)
    (hsuf : ¬ ignoredFileSuffixes.contains (pathSuffix (lastName p)) = true)
    (hlk : fs.files.lookup p = some bytes)
    (hsz : ¬ bytes.length > maxReadBytes) (hdec : utf8Decode bytes = none) :
    read_file fs root r = .error (.encodingError p) := by
  unfold read_file
  rw [hsp]
  dsimp only
  rw [if_neg hsuf, hlk]
  dsimp only
  rw [if_neg hsz, hdec]

/-- `read_file` on a readable file returns exactly the decoded text. -/
theorem read_file_ok (fs : FS) (root : AbsPath) (r : RelPath)
    (p : AbsPath) (bytes text : List Nat) (hsp : safePath root r = .ok p)
    (hsuf : ¬ ignoredFileSuffixes.contains (pathSuffix (lastName p)) = true)
    (hlk : fs.files.lookup p = some bytes)
    (hsz : ¬ bytes.length > maxReadBytes)
    (hdec : utf8Decode bytes = some text) :
    read_file fs root r = .ok text := by
  unfold read_file
  rw [hsp]
  dsimp only
  rw [if_neg hsuf, hlk]
  dsimp only
  rw [if_neg hsz, hdec]

/-- `write_file` on an excluded suffix. -/
theorem write_file_suffix (fs : FS) (root : AbsPath) (r : RelPath)
    (content : List Nat) (p : AbsPath) (hsp : safePath root r = .ok p)
    (hsuf : ignoredFileSuffixes.contains (pathSuffix (lastName p)) = true) :
    write_file fs root r content = .error (.inadmissible p) := by
  unfold write_file
  rw [hsp]
  dsimp only
  rw [if_pos hsuf]

/-- `write_file` on an admissible contained path: the confirmation and the
new filesystem. -/
theorem write_file_ok (fs : FS) (root : AbsPath) (r : RelPath)
    (content : List Nat) (p : AbsPath) (hsp : safePath root r = .ok p)
    (hsuf : ¬ ignoredFileSuffixes.contains (pathSuffix (lastName p)) = true) :
    write_file fs root r content =
      .ok ("書き込み完了: " ++ showPath p,
        FS.mk ((p, utf8Encode content) ::
            fs.files.filter (fun kv => ¬ (kv.1 == p)))
          (mkdirParents fs.dirs p)) := by
  unfold write_file
  rw [hsp]
  dsimp only
  rw [if_neg hsuf]

/-- Inversion: an `inadmissible` failure of `read_file` comes exactly from
the suffix check on the contained canonical path. -/
theorem read_file_inadmissible_inv (fs : FS) (root : AbsPath) (r : RelPath)
    (q : AbsPath) (h : read_file fs root r = .error (.inadmissible q)) :
    safePath root r = .ok q ∧
      ignoredFileSuffixes.contains (pathSuffix (lastName q)) = true := by
  rcases hsp : safePath root r with e | p
  · rw [read_file_escape fs root r e hsp] at h
    rw [safePath_error_shape root r e hsp] at h
    simp at h
  · by_cases hsuf : ignoredFileSuffixes.contains (pathSuffix (lastName p)) = true
    · rw [read_file_suffix fs root r p hsp hsuf] at h
      have hpq : p = q := by simpa using h
      subst hpq
      exact ⟨rfl, hsuf⟩
    · rcases hlk : fs.files.lookup p with _ | bytes
      · rw [read_file_notFound fs root r p hsp hsuf hlk] at h
        simp at h
      · by_cases hsz : bytes.length > maxReadBytes
        · rw [read_file_tooLarge fs root r p bytes hsp hsuf hlk hsz] at h
          simp at h
        · rcases hdec : utf8Decode bytes with _ | text
          · rw [read_file_encodingError fs root r p bytes hsp hsuf hlk hsz hdec]
              at h
            simp at h
          · rw [read_file_ok fs root r p bytes text hsp hsuf hlk hsz hdec] at h
            simp at h

/-- Inversion: a `notFound` failure of `read_file` comes exactly from the
`stat` of a missing file, after the suffix check has passed. -/
theorem read_file_notFound_inv (fs : FS) (root : AbsPath) (r : RelPath)
    (q : AbsPath) (h : read_file fs root r = .error (.notFound q)) :
    safePath root r = .ok q ∧
      ignoredFileSuffixes.contains (pathSuffix (lastName q)) = false ∧
      fs.files.lookup q = none := by
  rcases hsp : safePath root r with e | p
  · rw [read_file_escape fs root r e hsp] at h
    rw [safePath_error_shape root r e hsp] at h
    simp at h
  · by_cases hsuf : ignoredFileSuffixes.contains (pathSuffix (lastName p)) = true
    · rw [read_file_suffix fs root r p hsp hsuf] at h
      simp at h
    · rcases hlk : fs.files.lookup p with _ | bytes
      · rw [read_file_notFound fs root r p hsp hsuf hlk] at h
        have hpq : p = q := by simpa using h
        subst hpq
        exact ⟨rfl, by simpa using hsuf, hlk⟩
      · by_cases hsz : bytes.length > maxReadBytes
        · rw [read_file_tooLarge fs root r p bytes hsp hsuf hlk hsz] at h
          simp at h
        · rcases hdec : utf8Decode bytes with _ | text
          · rw [read_file_encodingError fs root r p bytes hsp hsuf hlk hsz hdec]
              at h
            simp at h
          · rw [read_file_ok fs root r p bytes text hsp hsuf hlk hsz hdec] at h
            simp at h

/-- Inversion: a successful `read_file` returns exactly the strict UTF-8
decoding of the stored bytes of the contained canonical path. -/
theorem read_file_ok_inv (fs : FS) (root : AbsPath) (r : RelPath)
    (text : List Nat) (h : read_file fs root r = .ok text) :
    ∃ p bytes, safePath root r = .ok p ∧
      ignoredFileSuffixes.contains (pathSuffix (lastName p)) = false ∧
      fs.files.lookup p = some bytes ∧ ¬ bytes.length > maxReadBytes ∧
      utf8Decode bytes = some text := by
  rcases hsp : safePath root r with e | p
  · rw [read_file_escape fs root r e hsp] at h
    simp at h
  · by_cases hsuf : ignoredFileSuffixes.contains (pathSuffix (lastName p)) = true
    · rw [read_file_suffix fs root r p hsp hsuf] at h
      simp at h
    · rcases hlk : fs.files.lookup p with _ | bytes
      · rw [read_file_notFound fs root r p hsp hsuf hlk] at h
        simp at h
      · by_cases hsz : bytes.length > maxReadBytes
        · rw [read_file_tooLarge fs root r p bytes hsp hsuf hlk hsz] at h
          simp at h
        · rcases hdec : utf8Decode bytes with _ | t
          · rw [read_file_encodingError fs root r p bytes hsp hsuf hlk hsz hdec]
              at h
            simp at h
          · rw [read_file_ok fs root r p bytes t hsp hsuf hlk hsz hdec] at h
            have ht : t = text := by simpa using h
            subst ht
            exact ⟨p, bytes, rfl, by simpa using hsuf, hlk, hsz, hdec⟩

/-- Inversion: an `inadmissible` failure of `write_file` comes exactly
from the suffix check on the contained canonical path. -/
theorem write_file_inadmissible_inv (fs : FS) (root : AbsPath) (r : RelPath)
    (content : List Nat) (q : AbsPath)
    (h : write_file fs root r content = .error (.inadmissible q)) :
    safePath root r = .ok q ∧
      ignoredFileSuffixes.contains (pathSuffix (lastName q)) = true := by
  rcases hsp : safePath root r with e | p
  · rw [write_file_escape fs root r content e hsp] at h
    rw [safePath_error_shape root r e hsp] at h
    simp at h
  · by_cases hsuf : ignoredFileSuffixes.contains (pathSuffix (lastName p)) = true
    · rw [write_file_suffix fs root r content p hsp hsuf] at h
      have hpq : p = q := by simpa using h
      subst hpq
      exact ⟨rfl, hsuf⟩
    · rw [write_file_ok fs root r content p hsp hsuf] at h
      simp at h

/-- Filtering away the entries keyed by another path does not change a
lookup. -/
theorem lookup_filter_ne (q p : AbsPath) (l : List (AbsPath × List Nat))
    (hqp : q ≠ p) :
    (l.filter (fun kv => ¬ (kv.1 == p))).lookup q = l.lookup q := by
  induction l with
  | nil => rfl
  | cons kv l ih =>
    cases kv with
    | mk k v =>
      by_cases hk : k = p
      · subst hk
        have h1 : (q == k) = false := by
          simp only [beq_eq_false_iff_ne, ne_eq]
          exact hqp
        simp [List.filter, List.lookup, h1]
        simpa using ih
      · have h2 : (k == p) = false := by
          simp only [beq_eq_false_iff_ne, ne_eq]
          exact hk
        by_cases hqk : q = k
        · subst hqk
          simp [List.filter, List.lookup, h2]
        · have h3 : (q == k) = false := by
            simp only [beq_eq_false_iff_ne, ne_eq]
            exact hqk
          simp [List.filter, List.lookup, h2, h3]
          simpa using ih

/-- Encoding an ASCII-only text is the identity on the byte level. -/
theorem utf8Encode_replicate (n c : Nat) (h : c < 0x80) :
    utf8Encode (List.replicate n c) = List.replicate n c := by
  induction n with
  | zero => rfl
  | succ n ih =>
    rw [List.replicate_succ, utf8Encode, ih, utf8EncodeCp, if_pos h]
    rfl

/-- C1: a caller-supplied path whose canonical resolution (collapsing
`..` segments and absolute prefixes; the modelled tree is symlink-free)
lies outside the workspace root makes `read_file` and `write_file` fail
with `pathEscape` — uniformly in the filesystem state, so before any file
is touched; a path whose canonical resolution is the root itself or a
strict descendant passes the containment check. -/
theorem C1_path_containment (root : AbsPath) (r : RelPath) (fs : FS)
    (content : List Nat) :
    (¬ root <+: canonicalPath root r →
      read_file fs root r = .error (.pathEscape (canonicalPath root r)) ∧
      write_file fs root r content =
        .error (.pathEscape (canonicalPath root r))) ∧
    (root <+: canonicalPath root r →
      safePath root r = .ok (canonicalPath root r)) := by
  refine ⟨fun h => ?_, fun h => (safePath_ok_iff root r).2 h⟩
  have he := (safePath_err_iff root r).2 h
  exact ⟨read_file_escape fs root r _ he,
    write_file_escape fs root r content _ he⟩

/-- Witness for C1: `../etc/passwd` escapes a one-segment root and both
operations fail with `pathEscape`; `src/a.ts` stays inside and the check
passes. -/
theorem C1_path_containment_witness :
    read_file (FS.mk [] [["ws"]]) (["ws"])
        (RelPath.mk false ["..", "etc", "passwd"]) =
      .error (.pathEscape (["etc", "passwd"])) ∧
    write_file (FS.mk [] [["ws"]]) (["ws"])
        (RelPath.mk false ["..", "etc", "passwd"]) [] =
      .error (.pathEscape (["etc", "passwd"])) ∧
    safePath (["ws"]) (RelPath.mk false ["src", "a.ts"]) =
      .ok (["ws", "src", "a.ts"]) := by
  refine ⟨?_, ?_, ?_⟩
  · exact ((C1_path_containment (["ws"])
      (RelPath.mk false ["..", "etc", "passwd"]) (FS.mk [] [["ws"]]) []).1
        (by decide)).1
  · exact ((C1_path_containment (["ws"])
      (RelPath.mk false ["..", "etc", "passwd"]) (FS.mk [] [["ws"]]) []).1
        (by decide)).2
  · exact (C1_path_containment (["ws"]) (RelPath.mk false ["src", "a.ts"])
      (FS.mk [] [["ws"]]) []).2 (by decide)

/-- C2 counterexample: the file `.git/config` lies under the excluded
directory `.git`, yet `read_file` succeeds on it (its suffix is empty, and
`read_file` applies no directory-name rule), contradicting the claim that
read/write fail with the inadmissible error there. -/
theorem C2_counterexample :
    read_file (FS.mk [(["ws", ".git", "config"], [97])] [["ws"]]) (["ws"])
      (RelPath.mk false [".git", "config"]) = .ok [97] := by decide

/-- C2 (amended): a file one of whose segments is an excluded directory
name is never produced by the listing; `read_file` and `write_file`,
however, apply no directory-name rule — their only `inadmissible` failures
come from the excluded-suffix check. -/
theorem C2_excluded_dirs (fs : FS) (root p : AbsPath) (r : RelPath)
    (content : List Nat) :
    (p.any (fun s => ignoredDirs.contains s) = true → p ∉ listPaths fs root) ∧
    (∀ q, read_file fs root r = .error (.inadmissible q) →
      ignoredFileSuffixes.contains (pathSuffix (lastName q)) = true) ∧
    (∀ q, write_file fs root r content = .error (.inadmissible q) →
      ignoredFileSuffixes.contains (pathSuffix (lastName q)) = true) := by
  refine ⟨fun ha hmem => ?_, fun q h => (read_file_inadmissible_inv
    fs root r q h).2, fun q h => (write_file_inadmissible_inv
    fs root r content q h).2⟩
  rcases List.mem_filter.1 hmem with ⟨_, hc⟩
  simp only [Bool.and_eq_true, Bool.not_eq_true'] at hc
  rw [hc.1.2] at ha
  exact Bool.noConfusion ha

/-- Witness for C2: `.git/config` is excluded from the listing even when
present on disk, and a `.png` path makes both operations fail with the
inadmissible error, whose only source is the suffix rule. -/
theorem C2_excluded_dirs_witness :
    (["ws", ".git", "config"] ∉
      listPaths (FS.mk [(["ws", ".git", "config"], [97])] [["ws"]]) (["ws"])) ∧
    ignoredFileSuffixes.contains (pathSuffix (lastName (["ws", "a.png"]))) =
      true := by
  constructor
  · exact (C2_excluded_dirs
      (FS.mk [(["ws", ".git", "config"], [97])] [["ws"]]) (["ws"])
      (["ws", ".git", "config"]) (RelPath.mk false [".git", "config"]) []).1
      (by decide)
  · exact (C2_excluded_dirs (FS.mk [] [["ws"]]) (["ws"]) ([])
      (RelPath.mk false ["a.png"]) []).2.1 (["ws", "a.png"]) (by decide)

/-- C9: once containment has passed, the excluded-suffix rule is checked
before existence — an excluded suffix gives the inadmissible (binary-file)
failure whatever the filesystem contains, in particular for nonexistent
files; and a `notFound` failure can only arise for a path that passed the
suffix check (and is indeed absent). -/
theorem C9_suffix_before_existence (fs : FS) (root : AbsPath) (r : RelPath)
    (p : AbsPath) (hsp : safePath root r = .ok p) :
    (ignoredFileSuffixes.contains (pathSuffix (lastName p)) = true →
      read_file fs root r = .error (.inadmissible p)) ∧
    (∀ q, read_file fs root r = .error (.notFound q) →
      ignoredFileSuffixes.contains (pathSuffix (lastName q)) = false ∧
      fs.files.lookup q = none) := by
  refine ⟨fun hsuf => read_file_suffix fs root r p hsp hsuf, fun q h => ?_⟩
  exact ⟨(read_file_notFound_inv fs root r q h).2.1,
    (read_file_notFound_inv fs root r q h).2.2⟩

/-- Witness for C9: reading the nonexistent `x.png` from an empty
workspace fails with the inadmissible error, not with `notFound`. -/
theorem C9_suffix_before_existence_witness :
    read_file (FS.mk [] [["ws"]]) (["ws"]) (RelPath.mk false ["x.png"]) =
      .error (.inadmissible (["ws", "x.png"])) :=
  (C9_suffix_before_existence (FS.mk [] [["ws"]]) (["ws"])
    (RelPath.mk false ["x.png"]) (["ws", "x.png"]) (by decide)).1 (by decide)

/-- C10: a manifest that parses with the `scripts` key absent or null
behaves as an empty mapping — any script name fails with `unknownScript`
over the empty (sorted) enumeration, never with the invalid-manifest
failure. -/
theorem C10_scripts_absent (runner : String → ProcResult) (script : String) :
    run_npm_script (.parsed none) runner script =
      .error (.unknownScript (unknownScriptMsg script [])) ∧
    joinedSortedNames [] = "" ∧
    (∀ e, run_npm_script (.parsed none) runner script ≠
      .error (.manifestInvalid e)) := by
  refine ⟨rfl, rfl, fun e h => ?_⟩
  have hval : run_npm_script (.parsed none) runner script =
      .error (.unknownScript (unknownScriptMsg script [])) := rfl
  rw [hval] at h
  exact ScriptErr.noConfusion (Except.error.inj h)

/-- Witness for C10: a concrete name against the null `scripts` key. -/
theorem C10_scripts_absent_witness :
    run_npm_script (.parsed none) (fun _ => ProcResult.mk 0 "" "") ("build") =
      .error (.unknownScript (unknownScriptMsg ("build") [])) :=
  (C10_scripts_absent (fun _ => ProcResult.mk 0 "" "") ("build")).1

/-- C3: for an existing admissible file, a byte size within
`maxReadBytes` lets `read_file` return exactly the decoded text, while a
larger size fails with `tooLarge` carrying the actual size and the limit;
the oversized outcome depends only on the byte count, never on the bytes
themselves (the content is not consulted), and the rendered message
interpolates both numbers. -/
theorem C3_size_limit (fs : FS) (root : AbsPath) (r : RelPath) (p : AbsPath)
    (bytes : List Nat) (hsp : safePath root r = .ok p)
    (hsuf : ignoredFileSuffixes.contains (pathSuffix (lastName p)) = false)
    (hlk : fs.files.lookup p = some bytes) :
    (bytes.length ≤ maxReadBytes →
      ∀ text, utf8Decode bytes = some text → read_file fs root r = .ok text) ∧
    (bytes.length > maxReadBytes →
      read_file fs root r = .error (.tooLarge bytes.length maxReadBytes p) ∧
      (∀ fs2 bytes2, fs2.files.lookup p = some bytes2 →
        bytes2.length = bytes.length →
        read_file fs2 root r =
          .error (.tooLarge bytes.length maxReadBytes p)) ∧
      (∃ a b c, fsErrMsg (.tooLarge bytes.length maxReadBytes p) =
        a ++ toString bytes.length ++ b ++ toString maxReadBytes ++ c)) := by
  have hsuf2 : ¬ ignoredFileSuffixes.contains (pathSuffix (lastName p)) =
      true := by
    intro hh
    rw [hsuf] at hh
    exact Bool.noConfusion hh
  constructor
  · intro hle text hdec
    exact read_file_ok fs root r p bytes text hsp hsuf2 hlk (by omega) hdec
  · intro hgt
    refine ⟨read_file_tooLarge fs root r p bytes hsp hsuf2 hlk hgt,
      fun fs2 bytes2 hlk2 hlen => ?_, ?_⟩
    · have h := read_file_tooLarge fs2 root r p bytes2 hsp hsuf2 hlk2
        (by omega)
      rw [hlen] at h
      exact h
    · refine ⟨"ファイルが大きすぎます (", " bytes > ", " bytes): " ++ showPath p, ?_⟩
      simp [fsErrMsg, String.append_assoc]

/-- Witness for C3: a two-byte file reads back as its text; a
200001-byte file fails with `tooLarge 200001 200000`. -/
theorem C3_size_limit_witness :
    read_file (FS.mk [(["ws", "a.txt"], [104, 105])] [["ws"]]) (["ws"])
        (RelPath.mk false ["a.txt"]) = .ok [104, 105] ∧
    read_file (FS.mk [(["ws", "big.txt"], List.replicate 200001 97)] [["ws"]])
        (["ws"]) (RelPath.mk false ["big.txt"]) =
      .error (.tooLarge 200001 200000 (["ws", "big.txt"])) := by
  constructor
  · exact (C3_size_limit (FS.mk [(["ws", "a.txt"], [104, 105])] [["ws"]])
      (["ws"]) (RelPath.mk false ["a.txt"]) (["ws", "a.txt"]) [104, 105]
      (by decide) (by decide) rfl).1 (by decide) [104, 105] (by decide)
  · have h := ((C3_size_limit
      (FS.mk [(["ws", "big.txt"], List.replicate 200001 97)] [["ws"]])
      (["ws"]) (RelPath.mk false ["big.txt"]) (["ws", "big.txt"])
      (List.replicate 200001 97) (by decide) (by decide) rfl).2
        (by rw [List.length_replicate]; exact (by decide : (200001 : Nat) > 200000))).1
    rw [List.length_replicate] at h
    exact h

/-- C5: an existing admissible size-conforming file whose bytes are not
valid UTF-8 makes `read_file` fail with `encodingError`; and any
successful read returns exactly the strict decoding of the stored bytes —
nothing is substituted, truncated or otherwise altered. -/
theorem C5_encoding_error (fs : FS) (root : AbsPath) (r : RelPath)
    (p : AbsPath) (bytes : List Nat) (hsp : safePath root r = .ok p)
    (hsuf : ignoredFileSuffixes.contains (pathSuffix (lastName p)) = false)
    (hlk : fs.files.lookup p = some bytes)
    (hsz : bytes.length ≤ maxReadBytes) :
    (utf8Decode bytes = none →
      read_file fs root r = .error (.encodingError p)) ∧
    (∀ text, read_file fs root r = .ok text →
      utf8Decode bytes = some text) := by
  have hsuf2 : ¬ ignoredFileSuffixes.contains (pathSuffix (lastName p)) =
      true := by
    intro hh
    rw [hsuf] at hh
    exact Bool.noConfusion hh
  constructor
  · intro hbad
    exact read_file_encodingError fs root r p bytes hsp hsuf2 hlk (by omega)
      hbad
  · intro text h
    rcases read_file_ok_inv fs root r text h with
      ⟨p2, bytes2, hsp2, _, hlk2, _, hdec2⟩
    have hp : p = p2 := by
      have := hsp.symm.trans hsp2
      exact Except.ok.inj this
    subst hp
    have hb : bytes = bytes2 := by
      have := hlk.symm.trans hlk2
      exact Option.some.inj this
    subst hb
    exact hdec2

/-- Witness for C5: a single `0xFF` byte is not UTF-8 and the read fails
with `encodingError`. -/
theorem C5_encoding_error_witness :
    read_file (FS.mk [(["ws", "b.txt"], [255])] [["ws"]]) (["ws"])
        (RelPath.mk false ["b.txt"]) =
      .error (.encodingError (["ws", "b.txt"])) :=
  (C5_encoding_error (FS.mk [(["ws", "b.txt"], [255])] [["ws"]]) (["ws"])
    (RelPath.mk false ["b.txt"]) (["ws", "b.txt"]) [255] (by decide)
    (by decide) rfl (by decide)).1 (by decide)

/-- C6: a script name absent from the manifest mapping fails with
`unknownScript`, whose message is built over the comma-joined ascending
enumeration of every defined script name: the enumeration is sorted under
the code-point order and is a permutation of the defined names. -/
theorem C6_unknown_script (scripts : List (String × String))
    (runner : String → ProcResult) (script : String)
    (h : (scripts.map Prod.fst).contains script = false) :
    run_npm_script (.parsed (some scripts)) runner script =
      .error (.unknownScript (unknownScriptMsg script
        (scripts.map Prod.fst))) ∧
    (sortNames (scripts.map Prod.fst)).Pairwise
      (fun a b => strLeB a b = true) ∧
    (sortNames (scripts.map Prod.fst)).Perm (scripts.map Prod.fst) ∧
    (∃ pre, unknownScriptMsg script (scripts.map Prod.fst) =
      pre ++ joinedSortedNames (scripts.map Prod.fst)) := by
  refine ⟨?_, sortNames_sorted _, sortNames_perm _, ?_⟩
  · unfold run_npm_script
    dsimp only
    rw [Option.getD_some, if_neg (by rw [h]; exact Bool.noConfusion)]
  · exact ⟨"package.json に scripts." ++ script ++ " が定義されていません。\n" ++
      "定義されているスクリプト: ", by simp [unknownScriptMsg, String.append_assoc]⟩

/-- Witness for C6: with scripts `lint` and `build`, `run_npm_script
"test"` fails with the unknown-script message, which contains the sorted
enumeration `build, lint`. -/
theorem C6_unknown_script_witness :
    run_npm_script (.parsed (some [("lint", "x"), ("build", "y")]))
        (fun _ => ProcResult.mk 0 "" "") ("test") =
      .error (.unknownScript (unknownScriptMsg ("test") ["lint", "build"])) ∧
    (∃ pre post, unknownScriptMsg ("test") ["lint", "build"] =
      pre ++ "build, lint" ++ post) := by
  constructor
  · exact (C6_unknown_script [("lint", "x"), ("build", "y")]
      (fun _ => ProcResult.mk 0 "" "") ("test") (by decide)).1
  · exact ⟨"package.json に scripts.test が定義されていません。\n" ++
      "定義されているスクリプト: ", "", by decide⟩

/-- C7: a script name present in the manifest mapping makes
`run_npm_script` return, as a success, the single composed text holding
the literal exit code, the captured stdout and the captured stderr of the
invoked process (already decoded by the total replacement-decoding of the
console encoding); the exit code — zero or not — is data in that text,
never a failure of the call. -/
theorem C7_script_success (scripts : List (String × String))
    (runner : String → ProcResult) (script : String)
    (h : (scripts.map Prod.fst).contains script = true) :
    run_npm_script (.parsed (some scripts)) runner script =
      .ok (composeResult (runner script)) ∧
    composeResult (runner script) =
      "exit_code: " ++ toString (runner script).returncode ++
        "\nstdout:\n" ++ (runner script).stdout ++ "\nstderr:\n" ++
        (runner script).stderr := by
  constructor
  · unfold run_npm_script
    dsimp only
    rw [Option.getD_some, if_pos h]
  · rfl

/-- Witness for C7: a present script whose process exits with code 2 and
both streams captured; the call still succeeds and reports the code. -/
theorem C7_script_success_witness :
    run_npm_script (.parsed (some [("lint", "eslint .")]))
        (fun _ => ProcResult.mk 2 "3 problems" "warn") ("lint") =
      .ok ("exit_code: 2\nstdout:\n3 problems\nstderr:\nwarn") :=
  (C7_script_success [("lint", "eslint .")]
    (fun _ => ProcResult.mk 2 "3 problems" "warn") ("lint") (by decide)).1

/-- C4 counterexample: the round trip fails as soon as the content's
UTF-8 encoding exceeds the read limit — writing 200001 ASCII characters
to the admissible `a.txt` succeeds, but the immediate read of the same
path fails with `tooLarge` instead of returning the content. -/
theorem C4_counterexample :
    (write_file (FS.mk [] [["ws"]]) (["ws"]) (RelPath.mk false ["a.txt"])
        (List.replicate 200001 97)).map
      (fun res => read_file res.2 (["ws"]) (RelPath.mk false ["a.txt"])) =
      .ok (.error (.tooLarge 200001 200000 (["ws", "a.txt"]))) := by
  have hsp : safePath (["ws"]) (RelPath.mk false ["a.txt"]) =
      .ok (["ws", "a.txt"]) := by decide
  have hsuf2 : ¬ ignoredFileSuffixes.contains
      (pathSuffix (lastName (["ws", "a.txt"]))) = true := by decide
  rw [write_file_ok (FS.mk [] [["ws"]]) (["ws"]) (RelPath.mk false ["a.txt"])
    (List.replicate 200001 97) (["ws", "a.txt"]) hsp hsuf2]
  dsimp only [Except.map]
  have hlen : (utf8Encode (List.replicate 200001 97)).length = 200001 := by
    rw [utf8Encode_replicate 200001 97 (by decide), List.length_replicate]
  have h := read_file_tooLarge
    (FS.mk ((["ws", "a.txt"], utf8Encode (List.replicate 200001 97)) ::
        (FS.mk [] [["ws"]]).files.filter
          (fun kv => ¬ (kv.1 == ["ws", "a.txt"])))
      (mkdirParents (FS.mk [] [["ws"]]).dirs (["ws", "a.txt"])))
    (["ws"]) (RelPath.mk false ["a.txt"]) (["ws", "a.txt"])
    (utf8Encode (List.replicate 200001 97)) hsp hsuf2
    List.lookup_cons_self
    (by rw [hlen]; exact (by decide : (200001 : Nat) > 200000))
  rw [h, hlen]
  rfl

/-- C4 (amended): for an admissible contained path and representable
content whose UTF-8 encoding does not exceed the read limit, writing and
then reading the same path succeeds and returns exactly the written
content (the written bytes are the encoding, and the strict decoding
gives the text back). -/
theorem C4_write_read_roundtrip (fs : FS) (root : AbsPath) (r : RelPath)
    (content : List Nat)
    (hpre : root <+: canonicalPath root r)
    (hsuf : ignoredFileSuffixes.contains
      (pathSuffix (lastName (canonicalPath root r))) = false)
    (hval : ∀ n ∈ content, ValidScalar n)
    (hsz : (utf8Encode content).length ≤ maxReadBytes) :
    (write_file fs root r content).isOk = true ∧
    (∀ ret fs2, write_file fs root r content = .ok (ret, fs2) →
      read_file fs2 root r = .ok content) := by
  have hsp := (safePath_ok_iff root r).2 hpre
  have hsuf2 : ¬ ignoredFileSuffixes.contains
      (pathSuffix (lastName (canonicalPath root r))) = true := by
    intro hh
    rw [hsuf] at hh
    exact Bool.noConfusion hh
  have hw := write_file_ok fs root r content (canonicalPath root r) hsp hsuf2
  constructor
  · rw [hw]
    rfl
  · intro ret fs2 heq
    rw [hw] at heq
    have h2 := Except.ok.inj heq
    have hfs2 : fs2 = FS.mk
        ((canonicalPath root r, utf8Encode content) ::
          fs.files.filter (fun kv => ¬ (kv.1 == canonicalPath root r)))
        (mkdirParents fs.dirs (canonicalPath root r)) :=
      (congrArg Prod.snd h2).symm
    subst hfs2
    exact read_file_ok _ root r (canonicalPath root r) (utf8Encode content)
      content hsp hsuf2 List.lookup_cons_self (by omega)
      (utf8Decode_utf8Encode content hval)

/-- Witness for C4 (amended): writing the two-character text `hあ` to
`a.txt` and reading it back returns it exactly. -/
theorem C4_write_read_roundtrip_witness :
    read_file
        (FS.mk [(["ws", "a.txt"], utf8Encode [104, 12354])]
          (mkdirParents [["ws"]] (["ws", "a.txt"])))
        (["ws"]) (RelPath.mk false ["a.txt"]) = .ok [104, 12354] :=
  (C4_write_read_roundtrip (FS.mk [] [["ws"]]) (["ws"])
    (RelPath.mk false ["a.txt"]) [104, 12354] (by decide) (by decide)
    (by decide) (by decide)).2 ("書き込み完了: /ws/a.txt")
    (FS.mk [(["ws", "a.txt"], utf8Encode [104, 12354])]
      (mkdirParents [["ws"]] (["ws", "a.txt"])))
    (by decide)

/-- C8: a successful write to an admissible contained path returns the
confirmation carrying the resolved absolute path; afterwards the file
holds exactly the UTF-8 encoding of the content (full replacement), every
ancestor directory of the file exists, the only directories that may have
been created are ancestors of the file, no file other than the target is
created or changed, and — provided the root's own ancestors already
existed — nothing is created outside the workspace root. -/
theorem C8_write_creates (fs : FS) (root : AbsPath) (r : RelPath)
    (content : List Nat)
    (hpre : root <+: canonicalPath root r)
    (hsuf : ignoredFileSuffixes.contains
      (pathSuffix (lastName (canonicalPath root r))) = false) :
    (write_file fs root r content).isOk = true ∧
    (∀ ret fs2, write_file fs root r content = .ok (ret, fs2) →
      ret = "書き込み完了: " ++ showPath (canonicalPath root r) ∧
      fs2.files.lookup (canonicalPath root r) = some (utf8Encode content) ∧
      (∀ q, q ∈ parentsList (canonicalPath root r) → q ∈ fs2.dirs) ∧
      (∀ q, q ∈ fs2.dirs →
        q ∈ fs.dirs ∨ q ∈ parentsList (canonicalPath root r)) ∧
      ((∀ q, q ∈ parentsList root → q ∈ fs.dirs) →
        ∀ q, q ∈ fs2.dirs → q ∉ fs.dirs → root <+: q) ∧
      (∀ q bs, fs2.files.lookup q = some bs →
        q = canonicalPath root r ∨ fs.files.lookup q = some bs)) := by
  have hsp := (safePath_ok_iff root r).2 hpre
  have hsuf2 : ¬ ignoredFileSuffixes.contains
      (pathSuffix (lastName (canonicalPath root r))) = true := by
    intro hh
    rw [hsuf] at hh
    exact Bool.noConfusion hh
  have hw := write_file_ok fs root r content (canonicalPath root r) hsp hsuf2
  constructor
  · rw [hw]
    rfl
  · intro ret fs2 heq
    rw [hw] at heq
    have h2 := Except.ok.inj heq
    have hret : ret = "書き込み完了: " ++ showPath (canonicalPath root r) :=
      (congrArg Prod.fst h2).symm
    have hfs2 : fs2 = FS.mk
        ((canonicalPath root r, utf8Encode content) ::
          fs.files.filter (fun kv => ¬ (kv.1 == canonicalPath root r)))
        (mkdirParents fs.dirs (canonicalPath root r)) :=
      (congrArg Prod.snd h2).symm
    subst hfs2
    refine ⟨hret, List.lookup_cons_self, ?_, ?_, ?_, ?_⟩
    · intro q hq
      by_cases hqd : q ∈ fs.dirs
      · exact List.mem_append.2 (Or.inl hqd)
      · refine List.mem_append.2 (Or.inr ?_)
        rw [List.mem_filter]
        exact ⟨hq, by simpa using hqd⟩
    · intro q hq
      rcases List.mem_append.1 hq with h | h
      · exact Or.inl h
      · exact Or.inr (List.mem_filter.1 h).1
    · intro hanc q hq hnot
      have hqp : q ∈ parentsList (canonicalPath root r) := by
        rcases List.mem_append.1 hq with h | h
        · exact absurd h hnot
        · exact (List.mem_filter.1 h).1
      rcases (mem_parentsList q (canonicalPath root r)).1 hqp with ⟨k, hk, htake⟩
      rcases hpre with ⟨t, hrt⟩
      by_cases hkr : k < root.length
      · exfalso
        apply hnot
        apply hanc
        apply (mem_parentsList q root).2
        refine ⟨k, hkr, ?_⟩
        rw [← htake, ← hrt, List.take_append_of_le_length (by omega)]
      · have hk2 : k = root.length + (k - root.length) := by omega
        refine ⟨t.take (k - root.length), ?_⟩
        rw [← htake, ← hrt, hk2, List.take_append]
        have harith : root.length + (k - root.length) - root.length =
            k - root.length := by omega
        rw [harith]
    · intro q bs hlkq
      by_cases hq : q = canonicalPath root r
      · exact Or.inl hq
      · have hbne : (q == canonicalPath root r) = false := by
          simp only [beq_eq_false_iff_ne, ne_eq]
          exact hq
        simp only [List.lookup, hbne] at hlkq
        rw [lookup_filter_ne q (canonicalPath root r) fs.files hq] at hlkq
        exact Or.inr hlkq

/-- Witness for C8: writing `a/b.txt` into a workspace whose root is the
only directory creates the intermediate directory `ws/a`, stores the
encoded byte, confirms with the absolute path, and creates nothing
outside the root. -/
theorem C8_write_creates_witness :
    (write_file (FS.mk [] [[], ["ws"]]) (["ws"])
      (RelPath.mk false ["a", "b.txt"]) [97]).isOk = true ∧
    (FS.mk [(["ws", "a", "b.txt"], [97])]
        (mkdirParents [[], ["ws"]] (["ws", "a", "b.txt"]))).files.lookup
      (["ws", "a", "b.txt"]) = some (utf8Encode [97]) ∧
    (["ws", "a"]) ∈ (mkdirParents [[], ["ws"]] (["ws", "a", "b.txt"])) := by
  have h := C8_write_creates (FS.mk [] [[], ["ws"]]) (["ws"])
    (RelPath.mk false ["a", "b.txt"]) [97] (by decide) (by decide)
  have h2 := h.2 ("書き込み完了: /ws/a/b.txt")
    (FS.mk [(["ws", "a", "b.txt"], [97])]
      (mkdirParents [[], ["ws"]] (["ws", "a", "b.txt"]))) (by decide)
  exact ⟨h.1, h2.2.1, h2.2.2.1 (["ws", "a"]) (by decide)⟩
